import Mathlib

/-!
Shallow embedding of the transcript-to-analytics pipeline of the
`gong-chatgpt-gc-functions` repository (the core selected by its
specification): `processTranscriptEntries`, `extractConversationText`,
`analyzeTranscriptContent` and their helpers `getSpeakerName`,
`formatTimestamp`, `analyzeSentence` from `src/unnamed/part_000`
(lines 135-383), plus the sibling `extractConversationText` copy from
`src/functions/ai-analysis/index.js`.

Modelling conventions:
* JavaScript numbers are embedded as `ℚ` (exact arithmetic; every number
  the pipeline produces is obtained from inputs by `+ - * /` and
  `Math.floor`, so ℚ is closed under all operations used).
* An optional object field is `Option _`; JavaScript truthiness of a
  string is "non-empty", of a number is "non-zero", of `undefined` is
  false.
* A function argument that may fail `Array.isArray` is a `JsArg`:
  either an actual array or some non-array value.
* JavaScript `Map` and plain-object string-keyed records are
  insertion-ordered association lists.
* `String.prototype.split(' ')` is `String.splitOn " "` (both keep empty
  fragments and return one empty fragment on the empty string);
  `includes` is substring containment; `padStart(2,'0')` pads to width 2.
-/

/-- A JavaScript argument that is either an array of `α` or a non-array
value (`Array.isArray` fails). -/
inductive JsArg (α : Type) where
  | arr (l : List α)
  | notArray
  deriving Repr, DecidableEq

/-- Vendor sentence record: `{ text?: string, start?: number (ms), end?: number (ms) }`. -/
structure RawSentence where
  text : Option String
  start : Option ℚ
  «end» : Option ℚ
  deriving Repr, DecidableEq

/-- Vendor transcript entry: `{ speakerId, topic?, sentences? }` with the
legacy fallback fields `sentence | text, startTime?, endTime?`. -/
structure RawTranscriptEntry where
  speakerId : String
  topic : Option String
  sentences : Option (List RawSentence)
  sentence : Option String
  text : Option String
  startTime : Option ℚ
  endTime : Option ℚ
  deriving Repr, DecidableEq

/-- JavaScript truthiness of an optional string (`undefined` and `""` are falsy). -/
def truthyS : Option String → Bool
  | none => false
  | some s => !(s == "")

/-- JavaScript truthiness of an optional number (`undefined` and `0` are falsy). -/
def truthyQ : Option ℚ → Bool
  | none => false
  | some q => if q = 0 then false else true

/-- JavaScript `s.toLowerCase()` (character-wise lowering). -/
def lowerStr (s : String) : String :=
  String.mk (s.data.map Char.toLower)

/-- JavaScript `s.split(' ')` on character lists: the chunks between single
space characters, empty chunks kept (so the empty list yields one empty
chunk, matching `"".split(' ') == [""]`). -/
def splitSpaceChars : List Char → List Char → List (List Char)
  | [], acc => [acc.reverse]
  | c :: rest, acc =>
    if c == ' ' then acc.reverse :: splitSpaceChars rest []
    else splitSpaceChars rest (c :: acc)

/-- JavaScript `s.split(' ')`. -/
def jsSplitSpace (s : String) : List String :=
  (splitSpaceChars s.data []).map String.mk

/-- JavaScript `s.trim()` (strip whitespace from both ends). -/
def jsTrim (s : String) : String :=
  String.mk (((s.data.dropWhile Char.isWhitespace).reverse.dropWhile Char.isWhitespace).reverse)

/-- Substring containment on character lists: JavaScript `haystack.includes(needle)`. -/
def containsSub (needle : List Char) : List Char → Bool
  | [] => needle.isEmpty
  | c :: rest => needle.isPrefixOf (c :: rest) || containsSub needle rest

/-- JavaScript `s.includes(sub)`. -/
def jsIncludes (s sub : String) : Bool :=
  containsSub sub.data s.data

/-- The fixed positive keyword list of `analyzeSentence`. -/
def positiveWords : List String :=
  ["great", "excellent", "good", "love", "perfect", "amazing", "fantastic", "wonderful"]

/-- The fixed negative keyword list of `analyzeSentence`. -/
def negativeWords : List String :=
  ["bad", "terrible", "awful", "hate", "worst", "horrible", "concern", "problem", "issue"]

/-- Function `analyzeSentence(text)` from part_000 l.369-383: guard `if (!text) return 'neutral'`,
then compare the counts of positive and negative keywords contained
(case-insensitively, as substrings) in the text. -/
def analyzeSentence (text : Option String) : String :=
  match text with
  | none => "neutral"
  | some t =>
    if t == "" then "neutral"
    else
      let lowerText := lowerStr t
      let positiveCount := (positiveWords.filter (fun w => jsIncludes lowerText w)).length
      let negativeCount := (negativeWords.filter (fun w => jsIncludes lowerText w)).length
      if positiveCount > negativeCount then "positive"
      else if negativeCount > positiveCount then "negative"
      else "neutral"

/-- JavaScript truncation toward zero of a rational. -/
def jsTrunc (q : ℚ) : ℤ :=
  if 0 ≤ q then ⌊q⌋ else -⌊-q⌋

/-- JavaScript `a % b` (remainder with the sign of the dividend). -/
def jsMod (a b : ℚ) : ℚ :=
  a - b * jsTrunc (a / b)

/-- JavaScript `s.padStart(2, '0')`. -/
def padZero2 (s : String) : String :=
  if s.length < 2 then "0" ++ s else s

/-- Function `formatTimestamp(seconds)` from part_000 l.361-366.  The JavaScript guard
`if (!seconds && seconds !== 0) return '00:00'` only fires on non-number
input (`undefined`/`NaN`); every call site passes a number, so the guard
is unreachable in the embedding and the arithmetic branch is total. -/
def formatTimestamp (seconds : ℚ) : String :=
  let mins : ℤ := ⌊seconds / 60⌋
  let secs : ℤ := ⌊jsMod seconds 60⌋
  padZero2 (toString mins) ++ ":" ++ padZero2 (toString secs)

/-- An insertion-ordered string-keyed map (JavaScript `Map` / plain object). -/
abbrev SpeakerMap := List (String × String)

/-- JavaScript `speakerMap.has(k)`. -/
def mapHas (m : SpeakerMap) (k : String) : Bool :=
  m.any (fun p => p.1 == k)

/-- JavaScript `speakerMap.get(k)` (call sites only use it on present keys;
an absent key yields `""`, standing for `undefined`). -/
def mapGet (m : SpeakerMap) (k : String) : String :=
  match m.find? (fun p => p.1 == k) with
  | some p => p.2
  | none => ""

/-- Function `getSpeakerName(speakerId, speakerMap)` from part_000 l.352-358, with the
map threaded explicitly: on a fresh id it appends `"Speaker {size+1}"`. -/
def getSpeakerName (speakerId : String) (speakerMap : SpeakerMap) :
    String × SpeakerMap :=
  if mapHas speakerMap speakerId then
    (mapGet speakerMap speakerId, speakerMap)
  else
    let label := "Speaker " ++ toString (speakerMap.length + 1)
    (label, speakerMap ++ [(speakerId, label)])

/-- A normalized utterance, as built by `processTranscriptEntries`. -/
structure Utterance where
  speakerId : String
  speakerName : String
  sentence : String
  startTime : ℚ
  endTime : ℚ
  timestamp : String
  topic : Option String
  duration : ℚ
  wordCount : ℕ
  sentiment : String
  deriving Repr, DecidableEq

/-- Source expression `sentence.start ? sentence.start / 1000 : 0`. -/
def sentStart (s : RawSentence) : ℚ :=
  if truthyQ s.start then s.start.getD 0 / 1000 else 0

/-- Source expression `sentence.end ? sentence.end / 1000 : 0`. -/
def sentEnd (s : RawSentence) : ℚ :=
  if truthyQ s.«end» then s.«end».getD 0 / 1000 else 0

/-- Source expression `sentence.end && sentence.start ? (sentence.end - sentence.start) / 1000 : 0`. -/
def sentDuration (s : RawSentence) : ℚ :=
  if truthyQ s.«end» && truthyQ s.start then (s.«end».getD 0 - s.start.getD 0) / 1000 else 0

/-- Source expression `sentence.text ? sentence.text.split(' ').length : 0`
(the Entry Normalizer's word count). -/
def sentWordCount (s : RawSentence) : ℕ :=
  if truthyS s.text then (jsSplitSpace (s.text.getD "")).length else 0

/-- The utterance `processTranscriptEntries` pushes for one sentence of an
entry with a `sentences` array (part_000 l.141-158), given the resolved
speaker name. -/
def normUtterance (speakerId : String) (speakerName : String) (topic : Option String)
    (s : RawSentence) : Utterance :=
  { speakerId := speakerId
    speakerName := speakerName
    sentence := if truthyS s.text then s.text.getD "" else "No text available"
    startTime := sentStart s
    endTime := sentEnd s
    timestamp := formatTimestamp (sentStart s)
    topic := if truthyS topic then topic else none
    duration := sentDuration s
    wordCount := sentWordCount s
    sentiment := analyzeSentence s.text }

/-- The inner sentence loop of `processTranscriptEntries`: one utterance per
sentence, `getSpeakerName` consulted per sentence (mutating the map on the
first sentence of a fresh speaker). -/
def processSentences (speakerId : String) (topic : Option String) :
    List RawSentence → SpeakerMap → List Utterance × SpeakerMap
  | [], m => ([], m)
  | s :: rest, m =>
    let nm := getSpeakerName speakerId m
    let tail := processSentences speakerId topic rest nm.2
    (normUtterance speakerId nm.1 topic s :: tail.1, tail.2)

/-- The fallback utterance `processTranscriptEntries` pushes for an entry
without a `sentences` array (part_000 l.161-172), given the resolved name. -/
def fallbackUtterance (e : RawTranscriptEntry) (speakerName : String) : Utterance :=
  { speakerId := e.speakerId
    speakerName := speakerName
    sentence :=
      if truthyS e.sentence then e.sentence.getD ""
      else if truthyS e.text then e.text.getD ""
      else "No content available"
    startTime := if truthyQ e.startTime then e.startTime.getD 0 else 0
    endTime := if truthyQ e.endTime then e.endTime.getD 0 else 0
    timestamp := formatTimestamp (if truthyQ e.startTime then e.startTime.getD 0 else 0)
    topic := if truthyS e.topic then e.topic else none
    duration := 0
    wordCount := 0
    sentiment := "neutral" }

/-- One iteration of the entry loop of `processTranscriptEntries`. -/
def processEntry (e : RawTranscriptEntry) (m : SpeakerMap) :
    List Utterance × SpeakerMap :=
  match e.sentences with
  | some ss => processSentences e.speakerId e.topic ss m
  | none =>
    let nm := getSpeakerName e.speakerId m
    ([fallbackUtterance e nm.1], nm.2)

/-- The entry loop of `processTranscriptEntries`, threading the speaker map. -/
def processEntriesLoop : List RawTranscriptEntry → SpeakerMap → List Utterance × SpeakerMap
  | [], m => ([], m)
  | e :: rest, m =>
    let hd := processEntry e m
    let tl := processEntriesLoop rest hd.2
    (hd.1 ++ tl.1, tl.2)

/-- Function `processTranscriptEntries(transcriptArray)` from part_000 l.135-178:
non-arrays yield `[]`; otherwise the entries are flattened into utterances
with a fresh per-call speaker map. -/
def processTranscriptEntries (transcriptArray : JsArg RawTranscriptEntry) : List Utterance :=
  match transcriptArray with
  | .notArray => []
  | .arr l => (processEntriesLoop l []).1

/-- The lines the Conversation Text Extractor produces for the sentences of
one entry, given the resolved speaker name: a line per sentence whose
`text?.trim()` is truthy (present and non-blank). -/
def extractLines (speakerName : String) (ss : List RawSentence) : List String :=
  ss.filterMap (fun s =>
    match s.text with
    | none => none
    | some t => if jsTrim t == "" then none else some (speakerName ++ ": " ++ jsTrim t))

/-- One iteration of the entry loop of `extractConversationText`
(part_000 l.190-206): an entry with a `sentences` array resolves its
speaker name — label `"Speaker{size+1}"`, no space — registering it when
fresh; entries without a `sentences` array are skipped. -/
def extractEntryStep (e : RawTranscriptEntry) (m : SpeakerMap) : List String × SpeakerMap :=
  match e.sentences with
  | none => ([], m)
  | some ss =>
    let fresh := "Speaker" ++ toString (m.length + 1)
    if mapHas m e.speakerId then (extractLines (mapGet m e.speakerId) ss, m)
    else (extractLines fresh ss, m ++ [(e.speakerId, fresh)])

/-- The entry loop of `extractConversationText`, threading its own speaker map. -/
def extractLoop : List RawTranscriptEntry → SpeakerMap → List String
  | [], _ => []
  | e :: rest, m =>
    let st := extractEntryStep e m
    st.1 ++ extractLoop rest st.2

/-- Function `extractConversationText(transcriptArray)` from part_000 l.183-209:
`conversation.join('\n')` over the collected lines. -/
def extractConversationText : JsArg RawTranscriptEntry → String
  | .notArray => ""
  | .arr l => String.intercalate "\n" (extractLoop l [])

/-- The entry step of the `extractConversationText` copy in
`src/functions/ai-analysis/index.js` l.226-254.  Its initial
`Speaker_{speakerId}` binding is overwritten on both branches (dead
value), so the step reduces to the part_000 one. -/
def extractEntryStepAI (e : RawTranscriptEntry) (m : SpeakerMap) : List String × SpeakerMap :=
  match e.sentences with
  | none => ([], m)
  | some ss =>
    let _speakerName0 := "Speaker_" ++ e.speakerId
    let fresh := "Speaker" ++ toString (m.length + 1)
    if mapHas m e.speakerId then (extractLines (mapGet m e.speakerId) ss, m)
    else (extractLines fresh ss, m ++ [(e.speakerId, fresh)])

/-- The entry loop of the ai-analysis extractor copy. -/
def extractLoopAI : List RawTranscriptEntry → SpeakerMap → List String
  | [], _ => []
  | e :: rest, m =>
    let st := extractEntryStepAI e m
    st.1 ++ extractLoopAI rest st.2

/-- Function `extractConversationText` from `src/functions/ai-analysis/index.js` l.226-254. -/
def extractConversationTextAI : JsArg RawTranscriptEntry → String
  | .notArray => ""
  | .arr l => String.intercalate "\n" (extractLoopAI l [])

/-- Per-speaker aggregate record of `analyzeTranscriptContent`.  The source
initializes `{totalTime:0, wordCount:0, sentenceCount:0, avgWordsPerSentence:0}`
and attaches `talkTimePercentage` in the final pass; the embedding carries
both derived fields from the start (value `0` until the final pass). -/
structure SpeakerStat where
  totalTime : ℚ
  wordCount : ℕ
  sentenceCount : ℕ
  avgWordsPerSentence : ℚ
  talkTimePercentage : ℚ
  deriving Repr, DecidableEq

/-- The `sentimentDistribution` counters. -/
structure SentimentDistribution where
  positive : ℕ
  neutral : ℕ
  negative : ℕ
  deriving Repr, DecidableEq

/-- The `interactionMetrics` counters. -/
structure InteractionMetrics where
  questionCount : ℕ
  exclamationCount : ℕ
  speakerSwitches : ℕ
  deriving Repr, DecidableEq

/-- One `topicFlow` record. -/
structure TopicRecord where
  topic : String
  startTime : ℚ
  duration : ℚ
  mentions : ℕ
  deriving Repr, DecidableEq

/-- The analytics object built by `analyzeTranscriptContent` (part_000
l.217-228); `speakerStats` is an insertion-ordered string-keyed record. -/
structure CallAnalytics where
  speakerStats : List (String × SpeakerStat)
  totalDuration : ℚ
  totalWords : ℕ
  sentimentDistribution : SentimentDistribution
  topicFlow : List TopicRecord
  interactionMetrics : InteractionMetrics
  deriving Repr, DecidableEq

/-- The zero-initialized analytics object of part_000 l.217-228. -/
def initialAnalysis : CallAnalytics :=
  ⟨[], 0, 0, ⟨0, 0, 0⟩, [], ⟨0, 0, 0⟩⟩

/-- Key presence in the `speakerStats` record. -/
def statsHas (m : List (String × SpeakerStat)) (k : String) : Bool :=
  m.any (fun p => p.1 == k)

/-- In-place mutation of the (first, hence unique) record under key `k`. -/
def statsUpdate : List (String × SpeakerStat) → String → (SpeakerStat → SpeakerStat) →
    List (String × SpeakerStat)
  | [], _, _ => []
  | p :: rest, k, f =>
    if p.1 == k then (p.1, f p.2) :: rest else p :: statsUpdate rest k f

/-- Source statement `analysis.sentimentDistribution[sentiment]++` (the classifier only ever
returns one of the three keys). -/
def bumpSentiment (sd : SentimentDistribution) (s : String) : SentimentDistribution :=
  if s == "positive" then ⟨sd.positive + 1, sd.neutral, sd.negative⟩
  else if s == "neutral" then ⟨sd.positive, sd.neutral + 1, sd.negative⟩
  else if s == "negative" then ⟨sd.positive, sd.neutral, sd.negative + 1⟩
  else sd

/-- Source expression `topicFlow.find(t => t.topic === topic)` followed by in-place
`duration += d; mentions++` on the found record. -/
def topicUpdate : List TopicRecord → String → ℚ → List TopicRecord
  | [], _, _ => []
  | r :: rest, t, d =>
    if r.topic == t then ⟨r.topic, r.startTime, r.duration + d, r.mentions + 1⟩ :: rest
    else r :: topicUpdate rest t d

/-- The Content Analyzer's inline `text = sentence.text || ''`
(part_000 l.253; `""` stays `""` under `||`). -/
def anaText (s : RawSentence) : String :=
  s.text.getD ""

/-- The Content Analyzer's inline per-sentence duration (part_000 l.254):
`sentence.end && sentence.start ? (sentence.end - sentence.start) / 1000 : 0`,
re-derived independently of the Entry Normalizer. -/
def anaDuration (s : RawSentence) : ℚ :=
  if truthyQ s.«end» && truthyQ s.start then (s.«end».getD 0 - s.start.getD 0) / 1000 else 0

/-- The Content Analyzer's inline per-sentence word count (part_000 l.255):
`text.split(' ').length` on the defaulted text. -/
def anaWords (s : RawSentence) : ℕ :=
  (jsSplitSpace (anaText s)).length

/-- The Content Analyzer's per-sentence sentiment (part_000 l.266):
`analyzeSentence(text)` on the defaulted text. -/
def anaSentiment (s : RawSentence) : String :=
  analyzeSentence (some (anaText s))

/-- The Content Analyzer's inline topic start time (part_000 l.282):
`sentence.start ? sentence.start / 1000 : 0`. -/
def anaStart (s : RawSentence) : ℚ :=
  if truthyQ s.start then s.start.getD 0 / 1000 else 0

/-- The body of the sentence loop of `analyzeTranscriptContent`
(part_000 l.252-289): totals, per-speaker stats, sentiment bucket,
interaction counters and topic flow, re-derived inline from the raw
sentence (`text = sentence.text || ''`). -/
def analyzeSentenceStep (speakerId : String) (topic : Option String)
    (a : CallAnalytics) (s : RawSentence) : CallAnalytics :=
  let text := anaText s
  let duration := anaDuration s
  let words := anaWords s
  let a1 := { a with
    totalDuration := a.totalDuration + duration
    totalWords := a.totalWords + words
    speakerStats := statsUpdate a.speakerStats speakerId (fun st =>
      { st with
        totalTime := st.totalTime + duration
        wordCount := st.wordCount + words
        sentenceCount := st.sentenceCount + 1 }) }
  let a2 := { a1 with
    sentimentDistribution := bumpSentiment a1.sentimentDistribution (anaSentiment s)
    interactionMetrics := { a1.interactionMetrics with
      questionCount := a1.interactionMetrics.questionCount +
        (if jsIncludes text "?" then 1 else 0)
      exclamationCount := a1.interactionMetrics.exclamationCount +
        (if jsIncludes text "!" then 1 else 0) } }
  if truthyS topic then
    let t := topic.getD ""
    if a2.topicFlow.any (fun r => r.topic == t) then
      { a2 with topicFlow := topicUpdate a2.topicFlow t duration }
    else
      { a2 with topicFlow := a2.topicFlow ++ [⟨t, anaStart s, duration, 1⟩] }
  else a2

/-- One iteration of the entry loop of `analyzeTranscriptContent`
(part_000 l.230-290): entries without a `sentences` array are skipped
entirely (and leave `lastSpeaker` untouched); otherwise the speaker-switch
check fires when the remembered `lastSpeaker` is truthy and differs, the
speaker's stats record is lazily initialized, and every sentence is folded. -/
def analyzeEntryStep (a : CallAnalytics) (last : Option String) (e : RawTranscriptEntry) :
    CallAnalytics × Option String :=
  match e.sentences with
  | none => (a, last)
  | some ss =>
    let inc : ℕ :=
      match last with
      | none => 0
      | some ls => if ls ≠ "" ∧ ls ≠ e.speakerId then 1 else 0
    let a1 := { a with interactionMetrics := { a.interactionMetrics with
      speakerSwitches := a.interactionMetrics.speakerSwitches + inc } }
    let a2 :=
      if statsHas a1.speakerStats e.speakerId then a1
      else { a1 with speakerStats := a1.speakerStats ++ [(e.speakerId, ⟨0, 0, 0, 0, 0⟩)] }
    (ss.foldl (analyzeSentenceStep e.speakerId e.topic) a2, some e.speakerId)

/-- The entry loop of `analyzeTranscriptContent`, threading `lastSpeaker`. -/
def analyzeLoop : List RawTranscriptEntry → CallAnalytics → Option String → CallAnalytics
  | [], a, _ => a
  | e :: rest, a, last =>
    let st := analyzeEntryStep a last e
    analyzeLoop rest st.1 st.2

/-- The averages pass of `analyzeTranscriptContent` (part_000 l.293-298):
`avgWordsPerSentence` and `talkTimePercentage` for every speaker, with
zero-guards on the divisors. -/
def finalizeStats (a : CallAnalytics) : CallAnalytics :=
  { a with speakerStats := a.speakerStats.map (fun p =>
      (p.1, { p.2 with
        avgWordsPerSentence :=
          if p.2.sentenceCount > 0 then (p.2.wordCount : ℚ) / (p.2.sentenceCount : ℚ) else 0
        talkTimePercentage :=
          if a.totalDuration > 0 then p.2.totalTime / a.totalDuration * 100 else 0 })) }

/-- The whole array path of `analyzeTranscriptContent`. -/
def analyzeEntries (l : List RawTranscriptEntry) : CallAnalytics :=
  finalizeStats (analyzeLoop l initialAnalysis none)

/-- Function `analyzeTranscriptContent` returns the bare empty object `{}` on a
non-array argument (part_000 l.215) and the populated analytics object
otherwise; the two shapes are distinct JavaScript values. -/
inductive AnalyticsResult where
  | emptyObject
  | result (a : CallAnalytics)
  deriving Repr, DecidableEq

/-- Function `analyzeTranscriptContent(transcriptArray)` from part_000 l.214-301. -/
def analyzeTranscriptContent : JsArg RawTranscriptEntry → AnalyticsResult
  | .notArray => .emptyObject
  | .arr l => .result (analyzeEntries l)

/-! ## Dynamic model of the `sentence.text` field

The typed embedding above assumes `sentence.text` is a string or absent.
The specification's error-handling section also speaks about non-string
`sentence.text` values; to settle that, the pipeline is re-embedded with a
dynamically typed `text` field, where calling a string method on a
non-string value raises a `TypeError` (modelled in `Except`), exactly as in
JavaScript.  Everything else is as in the typed model. -/

/-- A dynamically typed JavaScript value for the `sentence.text` slot. -/
inductive JVal where
  | vstr (s : String)
  | vnum (q : ℚ)
  deriving Repr, DecidableEq

/-- JavaScript truthiness of an optional dynamic value. -/
def truthyJ : Option JVal → Bool
  | none => false
  | some (.vstr s) => !(s == "")
  | some (.vnum q) => if q = 0 then false else true

/-- JavaScript `v.split(' ')`: a TypeError unless `v` is a string. -/
def jvalSplitSpace : JVal → Except String (List String)
  | .vstr s => .ok (jsSplitSpace s)
  | .vnum _ => .error "TypeError: text.split is not a function"

/-- JavaScript `v.toLowerCase()`: a TypeError unless `v` is a string. -/
def jvalToLower : JVal → Except String String
  | .vstr s => .ok (lowerStr s)
  | .vnum _ => .error "TypeError: text.toLowerCase is not a function"

/-- JavaScript `v.trim()`: a TypeError unless `v` is a string. -/
def jvalTrim : JVal → Except String String
  | .vstr s => .ok (jsTrim s)
  | .vnum _ => .error "TypeError: text.trim is not a function"

/-- JavaScript `v.includes(sub)`: a TypeError unless `v` is a string. -/
def jvalIncludes : JVal → String → Except String Bool
  | .vstr s, sub => .ok (jsIncludes s sub)
  | .vnum _, _ => .error "TypeError: text.includes is not a function"

/-- A sentence whose `text` field may hold any JavaScript value. -/
structure RawSentenceDyn where
  text : Option JVal
  start : Option ℚ
  «end» : Option ℚ
  deriving Repr, DecidableEq

/-- A transcript entry over dynamic sentences. -/
structure RawTranscriptEntryDyn where
  speakerId : String
  topic : Option String
  sentences : Option (List RawSentenceDyn)
  sentence : Option String
  text : Option String
  startTime : Option ℚ
  endTime : Option ℚ
  deriving Repr, DecidableEq

/-- Function `analyzeSentence` over a dynamic argument: the `!text` guard passes
non-string falsy values through, but `text.toLowerCase()` throws on a
truthy non-string. -/
def analyzeSentenceDyn (text : Option JVal) : Except String String :=
  if truthyJ text = false then .ok "neutral"
  else do
    let lowerText ← jvalToLower (text.getD (.vstr ""))
    let positiveCount := (positiveWords.filter (fun w => jsIncludes lowerText w)).length
    let negativeCount := (negativeWords.filter (fun w => jsIncludes lowerText w)).length
    if positiveCount > negativeCount then .ok "positive"
    else if negativeCount > positiveCount then .ok "negative"
    else .ok "neutral"

/-- The normalizer's utterance for one dynamic sentence: `sentence.text ||
'No text available'` stores the raw value without a method call, but
`wordCount` (`sentence.text.split(' ')` behind the truthiness guard) and
`sentiment` may throw. -/
def normUtteranceDynFields (s : RawSentenceDyn) : Except String (ℕ × String) := do
  let wc ←
    if truthyJ s.text then do
      let parts ← jvalSplitSpace (s.text.getD (.vstr ""))
      pure parts.length
    else pure 0
  let sent ← analyzeSentenceDyn s.text
  pure (wc, sent)

/-- The normalizer's sentence loop over dynamic sentences (the fields other
than `wordCount`/`sentiment` cannot throw and are elided into the pair). -/
def processSentencesDyn : List RawSentenceDyn → Except String (List (ℕ × String))
  | [] => .ok []
  | s :: rest => do
    let u ← normUtteranceDynFields s
    let tail ← processSentencesDyn rest
    pure (u :: tail)

/-- Function `processTranscriptEntries` over dynamic entries: per-sentence
`wordCount`/`sentiment` pairs for sentence-bearing entries, the constant
fallback pair `(0, "neutral")` otherwise; the first TypeError propagates. -/
def processTranscriptEntriesDyn : JsArg RawTranscriptEntryDyn → Except String (List (ℕ × String))
  | .notArray => .ok []
  | .arr l => go l
  where
    go : List RawTranscriptEntryDyn → Except String (List (ℕ × String))
      | [] => .ok []
      | e :: rest => do
        let hd ←
          match e.sentences with
          | some ss => processSentencesDyn ss
          | none => pure [(0, "neutral")]
        let tl ← go rest
        pure (hd ++ tl)

/-- The analyzer's sentence body over a dynamic sentence:
`const text = sentence.text || ''` keeps a truthy non-string as is, and
`text.split(' ')` then throws. -/
def analyzeSentenceStepDyn (speakerId : String) (topic : Option String)
    (a : CallAnalytics) (s : RawSentenceDyn) : Except String CallAnalytics := do
  let textV := if truthyJ s.text then s.text.getD (.vstr "") else .vstr ""
  let duration :=
    if truthyQ s.«end» && truthyQ s.start then (s.«end».getD 0 - s.start.getD 0) / 1000 else 0
  let parts ← jvalSplitSpace textV
  let words := parts.length
  let a1 := { a with
    totalDuration := a.totalDuration + duration
    totalWords := a.totalWords + words
    speakerStats := statsUpdate a.speakerStats speakerId (fun st =>
      { st with
        totalTime := st.totalTime + duration
        wordCount := st.wordCount + words
        sentenceCount := st.sentenceCount + 1 }) }
  let sent ← analyzeSentenceDyn (some textV)
  let q ← jvalIncludes textV "?"
  let ex ← jvalIncludes textV "!"
  let a2 := { a1 with
    sentimentDistribution := bumpSentiment a1.sentimentDistribution sent
    interactionMetrics := { a1.interactionMetrics with
      questionCount := a1.interactionMetrics.questionCount + (if q then 1 else 0)
      exclamationCount := a1.interactionMetrics.exclamationCount + (if ex then 1 else 0) } }
  if truthyS topic then
    let t := topic.getD ""
    if a2.topicFlow.any (fun r => r.topic == t) then
      pure { a2 with topicFlow := topicUpdate a2.topicFlow t duration }
    else
      pure { a2 with topicFlow := a2.topicFlow ++
        [⟨t, if truthyQ s.start then s.start.getD 0 / 1000 else 0, duration, 1⟩] }
  else pure a2

/-- The analyzer's sentence loop over dynamic sentences. -/
def analyzeSentencesDyn (speakerId : String) (topic : Option String) :
    List RawSentenceDyn → CallAnalytics → Except String CallAnalytics
  | [], a => .ok a
  | s :: rest, a => do
    let a1 ← analyzeSentenceStepDyn speakerId topic a s
    analyzeSentencesDyn speakerId topic rest a1

/-- The analyzer's entry loop over dynamic entries. -/
def analyzeLoopDyn : List RawTranscriptEntryDyn → CallAnalytics → Option String →
    Except String CallAnalytics
  | [], a, _ => .ok a
  | e :: rest, a, last =>
    match e.sentences with
    | none => analyzeLoopDyn rest a last
    | some ss => do
      let inc : ℕ :=
        match last with
        | none => 0
        | some ls => if ls ≠ "" ∧ ls ≠ e.speakerId then 1 else 0
      let a1 := { a with interactionMetrics := { a.interactionMetrics with
        speakerSwitches := a.interactionMetrics.speakerSwitches + inc } }
      let a2 :=
        if statsHas a1.speakerStats e.speakerId then a1
        else { a1 with speakerStats := a1.speakerStats ++ [(e.speakerId, ⟨0, 0, 0, 0, 0⟩)] }
      let a3 ← analyzeSentencesDyn e.speakerId e.topic ss a2
      analyzeLoopDyn rest a3 (some e.speakerId)

/-- Function `analyzeTranscriptContent` over dynamic entries. -/
def analyzeTranscriptContentDyn : JsArg RawTranscriptEntryDyn → Except String AnalyticsResult
  | .notArray => .ok .emptyObject
  | .arr l => do
    let a ← analyzeLoopDyn l initialAnalysis none
    pure (.result (finalizeStats a))

/-- The extractor's sentence loop over dynamic sentences:
`sentence.text?.trim()` skips an absent text but throws on a truthy
non-string. -/
def extractLinesDyn (speakerName : String) : List RawSentenceDyn → Except String (List String)
  | [] => .ok []
  | s :: rest =>
    match s.text with
    | none => extractLinesDyn speakerName rest
    | some v => do
      let t ← jvalTrim v
      let tail ← extractLinesDyn speakerName rest
      if t == "" then pure tail else pure ((speakerName ++ ": " ++ t) :: tail)

/-- The extractor's entry loop over dynamic entries. -/
def extractLoopDyn : List RawTranscriptEntryDyn → SpeakerMap → Except String (List String)
  | [], _ => .ok []
  | e :: rest, m =>
    match e.sentences with
    | none => extractLoopDyn rest m
    | some ss => do
      let fresh := "Speaker" ++ toString (m.length + 1)
      let nm := if mapHas m e.speakerId then (mapGet m e.speakerId, m)
                else (fresh, m ++ [(e.speakerId, fresh)])
      let lines ← extractLinesDyn nm.1 ss
      let tail ← extractLoopDyn rest nm.2
      pure (lines ++ tail)

/-- Function `extractConversationText` over dynamic entries. -/
def extractConversationTextDyn : JsArg RawTranscriptEntryDyn → Except String String
  | .notArray => .ok ""
  | .arr l => do
    let lines ← extractLoopDyn l []
    pure (String.intercalate "\n" lines)

/-! ## Specification-side definitions

These definitions follow the words of the specification's claims (not the
source) and are compared with the source-derived definitions above in
refinement-style theorems. -/

/-- Claim C3's fallback sentence rule, read with JavaScript `??` semantics
as the claim writes it: `entry.sentence ?? entry.text ?? "No content
available"` (only absent fields fall through, the empty string does not). -/
def specFallbackSentence (e : RawTranscriptEntry) : String :=
  match e.sentence with
  | some s => s
  | none =>
    match e.text with
    | some t => t
    | none => "No content available"

/-- Claim C4's keyword count: how many words of a fixed list the lowercased
text contains as substrings. -/
def keywordCount (words : List String) (text : Option String) : ℕ :=
  (words.filter (fun w => jsIncludes (lowerStr (text.getD "")) w)).length

/-- Claim C6's speaker-switch count as stated: one switch per
sentence-bearing entry whose `speakerId` (any string, including `""`)
differs from the previous sentence-bearing entry's `speakerId`. -/
def specSwitches : List RawTranscriptEntry → Option String → ℕ
  | [], _ => 0
  | e :: rest, last =>
    match e.sentences with
    | none => specSwitches rest last
    | some _ =>
      (match last with
       | none => 0
       | some ls => if ls ≠ e.speakerId then 1 else 0) + specSwitches rest (some e.speakerId)

/-- The speaker-switch count the code actually implements: as `specSwitches`,
but a remembered empty-string speaker is falsy and never triggers a switch. -/
def specSwitchesAmended : List RawTranscriptEntry → Option String → ℕ
  | [], _ => 0
  | e :: rest, last =>
    match e.sentences with
    | none => specSwitchesAmended rest last
    | some _ =>
      (match last with
       | none => 0
       | some ls => if ls ≠ "" ∧ ls ≠ e.speakerId then 1 else 0) +
        specSwitchesAmended rest (some e.speakerId)

/-- The distinct elements of a list in first-seen order, relative to an
already-seen accumulator. -/
def distinctOrder : List String → List String → List String
  | [], _ => []
  | x :: xs, seen =>
    if seen.contains x then distinctOrder xs seen
    else x :: distinctOrder xs (seen ++ [x])

/-- Index of the first occurrence of `id` (length of the list when absent). -/
def idxOf1 : List String → String → ℕ
  | [], _ => 0
  | x :: xs, id => if x == id then 0 else idxOf1 xs id + 1

/-- The canonical resolver map after the distinct ids `seen`, with labels
`pre ++ toString k, pre ++ toString (k+1), …` in order. -/
def canonFrom (pre : String) (k : ℕ) : List String → SpeakerMap
  | [] => []
  | id :: rest => (id, pre ++ toString k) :: canonFrom pre (k + 1) rest

/-- A sequence of lookups against one Speaker Resolver instance, returning
the label sequence. -/
def runResolver : List String → SpeakerMap → List String
  | [], _ => []
  | id :: rest, m =>
    let nm := getSpeakerName id m
    nm.1 :: runResolver rest nm.2

/-- The resolver's map after a sequence of lookups. -/
def resolverState : List String → SpeakerMap → SpeakerMap
  | [], m => m
  | id :: rest, m => resolverState rest (getSpeakerName id m).2

/-- The sum of `totalTime` over a `speakerStats` record. -/
def sumTotalTime (m : List (String × SpeakerStat)) : ℚ :=
  (m.map (fun p => p.2.totalTime)).sum

/-- The (topic, sentence) pairs that contribute to `topicFlow`: every
sentence of a sentence-bearing entry whose `topic` is truthy, in scan
order. -/
def topicPairs (l : List RawTranscriptEntry) : List (String × RawSentence) :=
  l.flatMap (fun e =>
    match e.sentences with
    | none => []
    | some ss => if truthyS e.topic then ss.map (fun s => (e.topic.getD "", s)) else [])

/-- Claim C7's record for one topic: `startTime` from the first contributing
sentence, `duration` summed and `mentions` counted over all contributing
sentences of that topic. -/
def specTopicRecord (ps : List (String × RawSentence)) (t : String) : TopicRecord :=
  let these := ps.filter (fun p => p.1 == t)
  { topic := t
    startTime :=
      match these.head? with
      | some p => anaStart p.2
      | none => 0
    duration := (these.map (fun p => anaDuration p.2)).sum
    mentions := these.length }

/-- Claim C7's description of the topic-flow list over contributing pairs:
one record per distinct topic in first-occurrence order. -/
def specTopicFlowOfPairs (ps : List (String × RawSentence)) : List TopicRecord :=
  (distinctOrder (ps.map Prod.fst) []).map (specTopicRecord ps)

/-- The effect of one contributing (topic, sentence) pair on the analyzer's
`topicFlow` list (the `find`-then-update-or-push block of part_000
l.275-288). -/
def jsTopicStep (tf : List TopicRecord) (p : String × RawSentence) : List TopicRecord :=
  if tf.any (fun r => r.topic == p.1) then topicUpdate tf p.1 (anaDuration p.2)
  else tf ++ [⟨p.1, anaStart p.2, anaDuration p.2, 1⟩]

/-- Claim C7's topic flow over an entries array. -/
def specTopicFlow (l : List RawTranscriptEntry) : List TopicRecord :=
  specTopicFlowOfPairs (topicPairs l)

/-- The speakerIds of the sentence-bearing entries, in scan order (the
extractor resolves a label for every such entry, line-producing or not). -/
def sentenceBearingIds (l : List RawTranscriptEntry) : List String :=
  l.filterMap (fun e => e.sentences.map (fun _ => e.speakerId))

/-- Claim C8's speaker label for an id, amended to the label the code
builds (`"Speaker{N}"`, no space): N is the id's 1-based first-seen rank
among sentence-bearing entries. -/
def specExtractLabel (l : List RawTranscriptEntry) (id : String) : String :=
  "Speaker" ++ toString (idxOf1 (distinctOrder (sentenceBearingIds l) []) id + 1)

/-- The extractor's contribution of one entry under a given label: its
lines when sentence-bearing, nothing otherwise. -/
def extractSpecEntry (label : String) (e : RawTranscriptEntry) : List String :=
  match e.sentences with
  | none => []
  | some ss => extractLines label ss

/-- Claim C8's line list: one line `"{label}: {trimmedText}"` per sentence
with non-blank trimmed text, in scan order. -/
def specExtractLines (l : List RawTranscriptEntry) : List String :=
  l.flatMap (fun e => extractSpecEntry (specExtractLabel l e.speakerId) e)

/-- Claim C8's extractor output: the lines joined by single newlines. -/
def specExtractText (l : List RawTranscriptEntry) : String :=
  String.intercalate "\n" (specExtractLines l)

/-! ## Helper lemmas -/

/-- Looking up an id a second time returns the same name and leaves the map
unchanged. -/
theorem getSpeakerName_stable (id : String) (m : SpeakerMap) :
    getSpeakerName id (getSpeakerName id m).2 = ((getSpeakerName id m).1, (getSpeakerName id m).2) := by
  by_cases h : mapHas m id = true
  · simp [getSpeakerName, h]
  · have hx : mapHas (m ++ [(id, "Speaker " ++ toString (m.length + 1))]) id = true := by
      simp [mapHas]
    have hfind : m.find? (fun p => p.1 == id) = none := by
      rw [List.find?_eq_none]
      intro p hp
      by_contra hbe
      exact h (List.any_eq_true.mpr ⟨p, hp, by simpa using hbe⟩)
    simp only [getSpeakerName, h, if_false, Bool.false_eq_true, hx, if_true]
    simp [mapGet, List.find?_append, hfind]

/-- C4: for every text, the sentence sentiment classifier returns
`"positive"` exactly when the count of positive keywords contained
case-insensitively as substrings exceeds the negative count, `"negative"`
when the negative count exceeds the positive count, and `"neutral"`
otherwise (including ties and absent/empty text); and the four concrete
classifications of the specification hold. -/
theorem C4_sentiment_classifier :
    (∀ t : Option String,
      (analyzeSentence t = "positive" ↔
        keywordCount negativeWords t < keywordCount positiveWords t) ∧
      (analyzeSentence t = "negative" ↔
        keywordCount positiveWords t < keywordCount negativeWords t) ∧
      (analyzeSentence t = "neutral" ↔
        keywordCount positiveWords t = keywordCount negativeWords t)) ∧
    analyzeSentence (some "This is great and wonderful") = "positive" ∧
    analyzeSentence (some "This is a terrible problem") = "negative" ∧
    analyzeSentence (some "") = "neutral" ∧
    analyzeSentence (some "great problem") = "neutral" := by
  refine ⟨?_, by decide, by decide, by decide, by decide⟩
  intro t
  match t with
  | none => decide
  | some s =>
    by_cases h : s = ""
    · subst h; decide
    · have hb : (s == "") = false := by simpa using h
      simp only [analyzeSentence, keywordCount, Option.getD_some, hb, Bool.false_eq_true,
        if_false]
      split_ifs with h1 h2 <;> simp +decide <;> omega

/-- C9 (counterexample): on a non-array argument, `analyzeTranscriptContent`
returns the bare empty object, not the zero/empty-defaults analytics object
(`initialAnalysis` is exactly the zeroed analytics record the claim
describes), so the claim as stated is false. -/
theorem C9_counterexample :
    analyzeTranscriptContent .notArray = AnalyticsResult.emptyObject ∧
    AnalyticsResult.emptyObject ≠ AnalyticsResult.result initialAnalysis := by
  exact ⟨rfl, by decide⟩

/-- C9 (amended): on a non-array argument, `processTranscriptEntries`
returns an empty sequence without error, and `analyzeTranscriptContent`
returns the bare empty object `{}` (with no fields at all), which is
distinct from the zero/empty-defaults analytics object. -/
theorem C9_nonArray_behavior :
    processTranscriptEntries .notArray = [] ∧
    extractConversationText .notArray = "" ∧
    analyzeTranscriptContent .notArray = AnalyticsResult.emptyObject := by
  exact ⟨rfl, rfl, rfl⟩

/-- C10: the pipeline is not total over non-string `sentence.text`: a
truthy non-string text value (here the number `5`) makes all three core
functions raise a `TypeError` instead of degrading to the empty string,
while a proper string on the same shape of input succeeds. -/
theorem C10_nonstring_text_throws :
    processTranscriptEntriesDyn
        (.arr [⟨"A", none, some [⟨some (.vnum 5), none, none⟩], none, none, none, none⟩]) =
      .error "TypeError: text.split is not a function" ∧
    analyzeTranscriptContentDyn
        (.arr [⟨"A", none, some [⟨some (.vnum 5), none, none⟩], none, none, none, none⟩]) =
      .error "TypeError: text.split is not a function" ∧
    extractConversationTextDyn
        (.arr [⟨"A", none, some [⟨some (.vnum 5), none, none⟩], none, none, none, none⟩]) =
      .error "TypeError: text.trim is not a function" ∧
    processTranscriptEntriesDyn
        (.arr [⟨"A", none, some [⟨some (.vstr "ok"), none, none⟩], none, none, none, none⟩]) =
      .ok [(1, "neutral")] := by
  exact ⟨rfl, rfl, rfl, rfl⟩

/-- C1 (counterexample): on a sentence with absent `text`, the Entry
Normalizer records `wordCount = 0` while the Content Analyzer accumulates
`1` word into `totalWords` (from `''.split(' ').length == 1`), so the two
components do not agree bit-for-bit on the word count when `sentence.text`
is absent or empty. -/
theorem C1_counterexample :
    (processTranscriptEntries
        (.arr [⟨"A", none, some [⟨none, none, none⟩], none, none, none, none⟩])).map
      (fun u => u.wordCount) = [0] ∧
    (analyzeEntries [⟨"A", none, some [⟨none, none, none⟩], none, none, none, none⟩]).totalWords
      = 1 := by
  exact ⟨rfl, rfl⟩

/-- C1 (amended): for every sentence, the per-sentence duration and
sentiment re-derived by the Content Analyzer agree exactly with the Entry
Normalizer's fields, and the word counts agree whenever `sentence.text` is
truthy (present and non-empty); on falsy text the Normalizer records `0`
while the Analyzer counts `1`. -/
theorem C1_normalizer_analyzer_agree (s : RawSentence) :
    sentDuration s = anaDuration s ∧
    analyzeSentence s.text = anaSentiment s ∧
    (truthyS s.text = true → sentWordCount s = anaWords s) ∧
    (truthyS s.text = false → sentWordCount s = 0 ∧ anaWords s = 1) := by
  refine ⟨rfl, ?_, ?_, ?_⟩
  · cases h : s.text with
    | none => simp [anaSentiment, anaText, h, analyzeSentence]
    | some t => simp [anaSentiment, anaText, h]
  · intro ht
    simp [sentWordCount, anaWords, anaText, ht]
  · intro ht
    refine ⟨by simp [sentWordCount, ht], ?_⟩
    cases h : s.text with
    | none => simp [anaWords, anaText, h]; decide
    | some t =>
      rw [h] at ht
      have : t = "" := by simpa [truthyS] using ht
      subst this
      simp [anaWords, anaText, h]; decide

/-- C1 (witness): the agreement theorem applied at the concrete sentence
`{text: "Hi there", start: 1000, end: 3000}`. -/
theorem C1_agree_witness :
    sentWordCount ⟨some "Hi there", some 1000, some 3000⟩ =
      anaWords ⟨some "Hi there", some 1000, some 3000⟩ :=
  (C1_normalizer_analyzer_agree ⟨some "Hi there", some 1000, some 3000⟩).2.2.1 (by decide)

/-- All utterances of one entry receive the name resolved by the first
sentence's lookup. -/
theorem processSentences_fst (id : String) (topic : Option String) (ss : List RawSentence)
    (m : SpeakerMap) :
    (processSentences id topic ss m).1 =
      ss.map (normUtterance id (getSpeakerName id m).1 topic) := by
  induction ss generalizing m with
  | nil => rfl
  | cons s rest ih =>
    show normUtterance id (getSpeakerName id m).1 topic s ::
        (processSentences id topic rest (getSpeakerName id m).2).1 = _
    rw [ih, getSpeakerName_stable, List.map_cons]

/-- C3 (counterexample): an entry whose `sentences` is a present-but-empty
array emits zero utterances rather than the one fallback utterance the
claim requires; and the code's fallback coalescing is `||` (a present empty
`sentence` field falls through to `text`), not the claim's `??` (which
would keep the empty string). -/
theorem C3_counterexample :
    processTranscriptEntries (.arr [⟨"A", none, some [], none, none, none, none⟩]) = [] ∧
    (processTranscriptEntries (.arr [⟨"A", none, none, some "", some "hi", none, none⟩])).map
      (fun u => u.sentence) = ["hi"] ∧
    specFallbackSentence ⟨"A", none, none, some "", some "hi", none, none⟩ = "" := by
  exact ⟨rfl, rfl, rfl⟩

/-- C3 (amended): for every entry with a `sentences` array the Entry
Normalizer emits one utterance per sentence in array order (so zero
utterances for an empty array), with the fields of `normUtterance` and the
speaker name from the per-call resolver; for every entry without a
`sentences` array it emits exactly one fallback utterance (whose sentence
falls back through falsy `sentence`/`text` fields, and whose duration,
word count and sentiment are the constants `0`, `0`, `"neutral"`); on the
specification's concrete entry `{speakerId:"A", sentences:[{text:"Hi
there", start:1000, end:3000}]}` it yields exactly one utterance with
`startTime=1, endTime=3, duration=2, wordCount=2, timestamp="00:01",
speakerName="Speaker 1"`. -/
theorem C3_entry_normalizer :
    (∀ e m ss, e.sentences = some ss →
      (processEntry e m).1 =
        ss.map (normUtterance e.speakerId (getSpeakerName e.speakerId m).1 e.topic)) ∧
    (∀ e m, e.sentences = none →
      (processEntry e m).1 = [fallbackUtterance e (getSpeakerName e.speakerId m).1]) ∧
    (∀ e nm, (fallbackUtterance e nm).duration = 0 ∧ (fallbackUtterance e nm).wordCount = 0 ∧
      (fallbackUtterance e nm).sentiment = "neutral") ∧
    processTranscriptEntries
        (.arr [⟨"A", none, some [⟨some "Hi there", some 1000, some 3000⟩], none, none, none, none⟩]) =
      [⟨"A", "Speaker 1", "Hi there", 1, 3, "00:01", none, 2, 2, "neutral"⟩] := by
  refine ⟨?_, ?_, ?_, ?_⟩
  · intro e m ss h
    simp [processEntry, h, processSentences_fst]
  · intro e m h
    simp [processEntry, h]
  · intro e nm
    exact ⟨rfl, rfl, rfl⟩
  · norm_num [processTranscriptEntries, processEntriesLoop, processEntry, processSentences,
      normUtterance, getSpeakerName, mapHas, mapGet, sentStart, sentEnd, sentDuration,
      sentWordCount, analyzeSentence, truthyS, truthyQ, formatTimestamp, jsMod, jsTrunc,
      padZero2, jsSplitSpace, splitSpaceChars, lowerStr, jsIncludes, containsSub,
      positiveWords, negativeWords, Utterance.mk.injEq]
    decide

/-- C3 (witness): the per-sentence conjunct applied at a concrete
sentence-bearing entry with a fresh resolver. -/
theorem C3_witness :
    (processEntry ⟨"B", none, some [⟨some "yo", none, none⟩], none, none, none, none⟩ []).1 =
      [⟨some "yo", none, none⟩].map (normUtterance "B" (getSpeakerName "B" []).1 none) :=
  C3_entry_normalizer.1 ⟨"B", none, some [⟨some "yo", none, none⟩], none, none, none, none⟩ []
    [⟨some "yo", none, none⟩] rfl

/-- Presence in the canonical resolver map is membership in the seen list. -/
theorem mapHas_canonFrom (pre : String) (k : ℕ) (seen : List String) (id : String) :
    mapHas (canonFrom pre k seen) id = decide (id ∈ seen) := by
  induction seen generalizing k with
  | nil => simp [canonFrom, mapHas]
  | cons x rest ih =>
    simp only [canonFrom, mapHas, List.any_cons]
    by_cases hx : x = id
    · subst hx; simp
    · have hbe : (x == id) = false := by simp [hx]
      have hrec := ih (k + 1)
      simp only [mapHas] at hrec
      rw [hbe, Bool.false_or, hrec]
      by_cases hm : id ∈ rest
      · simp [hm, List.mem_cons_of_mem x hm]
      · have hnc : id ∉ x :: rest := by
          intro hc
          rcases List.mem_cons.mp hc with e | e
          · exact hx e.symm
          · exact hm e
        simp [hm, hnc]

/-- Lookup in the canonical resolver map returns the label indexed by the
first occurrence in the seen list. -/
theorem mapGet_canonFrom (pre : String) (k : ℕ) (seen : List String) (id : String)
    (h : id ∈ seen) :
    mapGet (canonFrom pre k seen) id = pre ++ toString (k + idxOf1 seen id) := by
  induction seen generalizing k with
  | nil => cases h
  | cons x rest ih =>
    by_cases hx : x = id
    · subst hx; simp [canonFrom, mapGet, idxOf1, List.find?]
    · have h' : id ∈ rest := by
        rcases List.mem_cons.mp h with h | h
        · exact absurd h.symm hx
        · exact h
      have harith : (k + 1) + idxOf1 rest id = k + (idxOf1 rest id + 1) := by omega
      have hbe : (x == id) = false := by simp [hx]
      calc mapGet (canonFrom pre k (x :: rest)) id
          = mapGet (canonFrom pre (k + 1) rest) id := by
            simp [canonFrom, mapGet, List.find?, hbe]
        _ = pre ++ toString ((k + 1) + idxOf1 rest id) := ih (k + 1) h'
        _ = pre ++ toString (k + (idxOf1 rest id + 1)) := by rw [harith]
        _ = pre ++ toString (k + idxOf1 (x :: rest) id) := by simp [idxOf1, hx]

/-- Appending a fresh id to the seen list appends one labelled pair to the
canonical map. -/
theorem canonFrom_snoc (pre : String) (k : ℕ) (seen : List String) (id : String) :
    canonFrom pre k (seen ++ [id]) =
      canonFrom pre k seen ++ [(id, pre ++ toString (k + seen.length))] := by
  induction seen generalizing k with
  | nil => simp [canonFrom]
  | cons x rest ih =>
    have harith : (k + 1) + rest.length = k + (rest.length + 1) := by omega
    show (x, pre ++ toString k) :: canonFrom pre (k + 1) (rest ++ [id]) = _
    rw [ih (k + 1), harith]
    simp [canonFrom]

/-- Length of the canonical map. -/
theorem canonFrom_length (pre : String) (k : ℕ) (seen : List String) :
    (canonFrom pre k seen).length = seen.length := by
  induction seen generalizing k with
  | nil => rfl
  | cons x rest ih => simp [canonFrom, ih]

/-- Index of a present id ignores anything appended on the right. -/
theorem idxOf1_append_left (seen z : List String) (id : String) (h : id ∈ seen) :
    idxOf1 (seen ++ z) id = idxOf1 seen id := by
  induction seen with
  | nil => cases h
  | cons x rest ih =>
    by_cases hx : x = id
    · simp [idxOf1, hx]
    · have h' : id ∈ rest := by
        rcases List.mem_cons.mp h with h | h
        · exact absurd h.symm hx
        · exact h
      simp [idxOf1, hx, ih h']

/-- Index of an absent-then-appended id is the length of the prefix. -/
theorem idxOf1_append_self (seen z : List String) (id : String) (h : id ∉ seen) :
    idxOf1 (seen ++ (id :: z)) id = seen.length := by
  induction seen with
  | nil => simp [idxOf1]
  | cons x rest ih =>
    have hx : ¬(x = id) := fun e => h (e ▸ List.mem_cons_self x rest)
    have h' : id ∉ rest := fun hr => h (List.mem_cons_of_mem x hr)
    simp [idxOf1, hx, ih h']

/-- Closed form of a lookup sequence against the resolver: every lookup
returns the label indexed by the id's first-seen rank. -/
theorem runResolver_closed (ids : List String) (seen : List String) :
    runResolver ids (canonFrom "Speaker " 1 seen) =
      ids.map (fun id => "Speaker " ++ toString (idxOf1 (seen ++ distinctOrder ids seen) id + 1)) := by
  induction ids generalizing seen with
  | nil => simp [runResolver]
  | cons id rest ih =>
    show (getSpeakerName id (canonFrom "Speaker " 1 seen)).1 ::
        runResolver rest (getSpeakerName id (canonFrom "Speaker " 1 seen)).2 = _
    by_cases hc : id ∈ seen
    · have hhas : mapHas (canonFrom "Speaker " 1 seen) id = true := by
        rw [mapHas_canonFrom]; exact decide_eq_true hc
      have hgs : getSpeakerName id (canonFrom "Speaker " 1 seen)
          = (mapGet (canonFrom "Speaker " 1 seen) id, canonFrom "Speaker " 1 seen) := by
        simp [getSpeakerName, hhas]
      have hdo : distinctOrder (id :: rest) seen = distinctOrder rest seen := by
        simp [distinctOrder, hc]
      rw [hgs, List.map_cons, hdo]
      congr 1
      · rw [mapGet_canonFrom "Speaker " 1 seen id hc, idxOf1_append_left seen _ id hc]
        have harith : 1 + idxOf1 seen id = idxOf1 seen id + 1 := by omega
        rw [harith]
      · exact ih seen
    · have hhas : mapHas (canonFrom "Speaker " 1 seen) id = false := by
        rw [mapHas_canonFrom]; exact decide_eq_false hc
      have hgs : getSpeakerName id (canonFrom "Speaker " 1 seen)
          = ("Speaker " ++ toString (seen.length + 1),
             canonFrom "Speaker " 1 seen ++ [(id, "Speaker " ++ toString (seen.length + 1))]) := by
        simp [getSpeakerName, hhas, canonFrom_length]
      have hsnoc : canonFrom "Speaker " 1 seen ++ [(id, "Speaker " ++ toString (seen.length + 1))]
          = canonFrom "Speaker " 1 (seen ++ [id]) := by
        rw [canonFrom_snoc]
        have harith : 1 + seen.length = seen.length + 1 := by omega
        rw [harith]
      have hdo : distinctOrder (id :: rest) seen = id :: distinctOrder rest (seen ++ [id]) := by
        simp [distinctOrder, hc]
      rw [hgs, List.map_cons, hdo, hsnoc]
      congr 1
      · rw [idxOf1_append_self seen _ id hc]
      · rw [ih (seen ++ [id])]
        simp only [List.append_assoc, List.singleton_append]

/-- The resolver map only ever grows by appending. -/
theorem resolverState_grows (ids : List String) (m : SpeakerMap) :
    m <+: resolverState ids m := by
  induction ids generalizing m with
  | nil => exact List.prefix_refl m
  | cons id rest ih =>
    have hstep : m <+: (getSpeakerName id m).2 := by
      by_cases h : mapHas m id = true
      · have he : (getSpeakerName id m).2 = m := by simp [getSpeakerName, h]
        rw [he]
      · have he : (getSpeakerName id m).2 = m ++ [(id, "Speaker " ++ toString (m.length + 1))] := by
          simp [getSpeakerName, h]
        rw [he]
        exact List.prefix_append _ _
    exact hstep.trans (ih (getSpeakerName id m).2)

/-- Function `distinctOrder` distributes over append. -/
theorem distinctOrder_append (xs ys seen : List String) :
    distinctOrder (xs ++ ys) seen =
      distinctOrder xs seen ++ distinctOrder ys (seen ++ distinctOrder xs seen) := by
  induction xs generalizing seen with
  | nil => simp [distinctOrder]
  | cons x xs ih =>
    by_cases hc : x ∈ seen
    · have h1 : distinctOrder ((x :: xs) ++ ys) seen = distinctOrder (xs ++ ys) seen := by
        simp [distinctOrder, hc]
      have h2 : distinctOrder (x :: xs) seen = distinctOrder xs seen := by
        simp [distinctOrder, hc]
      rw [h1, h2, ih seen]
    · have h1 : distinctOrder ((x :: xs) ++ ys) seen
          = x :: distinctOrder (xs ++ ys) (seen ++ [x]) := by
        simp [distinctOrder, hc]
      have h2 : distinctOrder (x :: xs) seen = x :: distinctOrder xs (seen ++ [x]) := by
        simp [distinctOrder, hc]
      rw [h1, h2, ih (seen ++ [x])]
      simp [List.append_assoc]

/-- Membership in `distinctOrder`. -/
theorem mem_distinctOrder (xs : List String) (seen : List String) (y : String) :
    y ∈ distinctOrder xs seen ↔ y ∈ xs ∧ y ∉ seen := by
  induction xs generalizing seen with
  | nil => simp [distinctOrder]
  | cons x xs ih =>
    by_cases hc : x ∈ seen
    · rw [show distinctOrder (x :: xs) seen = distinctOrder xs seen from by
        simp [distinctOrder, hc], ih]
      constructor
      · rintro ⟨h1, h2⟩
        exact ⟨List.mem_cons_of_mem x h1, h2⟩
      · rintro ⟨h1, h2⟩
        rcases List.mem_cons.mp h1 with e | h1
        · exact absurd (e ▸ hc) h2
        · exact ⟨h1, h2⟩
    · rw [show distinctOrder (x :: xs) seen = x :: distinctOrder xs (seen ++ [x]) from by
        simp [distinctOrder, hc], List.mem_cons, ih]
      constructor
      · rintro (e | ⟨h1, h2⟩)
        · exact ⟨List.mem_cons.mpr (Or.inl e), fun hy => hc (e ▸ hy)⟩
        · refine ⟨List.mem_cons_of_mem x h1, fun hy => h2 ?_⟩
          exact List.mem_append.mpr (Or.inl hy)
      · rintro ⟨h1, h2⟩
        rcases List.mem_cons.mp h1 with e | h1
        · exact Or.inl e
        · by_cases hyx : y = x
          · exact Or.inl hyx
          · refine Or.inr ⟨h1, fun hy => ?_⟩
            rcases List.mem_append.mp hy with hy | hy
            · exact h2 hy
            · exact hyx (List.mem_singleton.mp hy)

/-- Lists produced by `distinctOrder` have no duplicates. -/
theorem distinctOrder_nodup (xs seen : List String) : (distinctOrder xs seen).Nodup := by
  induction xs generalizing seen with
  | nil => simp [distinctOrder]
  | cons x xs ih =>
    by_cases hc : x ∈ seen
    · simpa [distinctOrder, hc] using ih seen
    · rw [show distinctOrder (x :: xs) seen = x :: distinctOrder xs (seen ++ [x]) from by
        simp [distinctOrder, hc]]
      refine List.nodup_cons.mpr ⟨?_, ih (seen ++ [x])⟩
      rw [mem_distinctOrder]
      rintro ⟨-, h2⟩
      exact h2 (List.mem_append.mpr (Or.inr (List.mem_singleton.mpr rfl)))

/-- C5: against one freshly constructed Speaker Resolver instance, the
first lookup of each distinct speakerId (any string, including `""`)
returns `"Speaker N"` where N is the 1-based count of distinct ids seen so
far; every later lookup of the same id returns the same label; the
id-to-label map only grows by appending; and the label sequence is
deterministic in the lookup sequence. -/
theorem C5_speaker_resolver :
    (∀ (ids : List String) (i : ℕ) (hi : i < ids.length),
      ids[i] ∉ ids.take i →
      (runResolver ids [])[i]? =
        some ("Speaker " ++ toString ((distinctOrder (ids.take (i + 1)) []).length))) ∧
    (∀ (ids : List String) (i j : ℕ) (hi : i < ids.length) (hj : j < ids.length),
      ids[i] = ids[j] →
      (runResolver ids [])[i]? = (runResolver ids [])[j]?) ∧
    (∀ (ids : List String) (m : SpeakerMap), m <+: resolverState ids m) ∧
    (∀ ids : List String, runResolver ids [] = runResolver ids []) := by
  have hclosed : ∀ ids : List String, runResolver ids [] =
      ids.map (fun id => "Speaker " ++ toString (idxOf1 (distinctOrder ids []) id + 1)) := by
    intro ids
    simpa using runResolver_closed ids []
  refine ⟨?_, ?_, resolverState_grows, fun ids => rfl⟩
  · intro ids i hi hfirst
    have htake : ids.take (i + 1) = ids.take i ++ [ids[i]] := by
      rw [List.take_succ, List.getElem?_eq_getElem hi]
      rfl
    have hxD : ids[i] ∉ distinctOrder (ids.take i) [] := fun hmem =>
      hfirst ((mem_distinctOrder _ _ _).mp hmem).1
    have htake1 : distinctOrder (ids.take (i + 1)) [] =
        distinctOrder (ids.take i) [] ++ [ids[i]] := by
      rw [htake, distinctOrder_append]
      simp only [List.nil_append]
      congr 1
      simp [distinctOrder, hxD]
    have hfull : distinctOrder ids [] =
        (distinctOrder (ids.take i) [] ++ [ids[i]]) ++
          distinctOrder (ids.drop (i + 1))
            (distinctOrder (ids.take i) [] ++ [ids[i]]) := by
      conv_lhs => rw [← List.take_append_drop (i + 1) ids]
      rw [distinctOrder_append, htake1]
      simp only [List.nil_append]
    have hidx : idxOf1 (distinctOrder ids []) ids[i] = (distinctOrder (ids.take i) []).length := by
      rw [hfull, List.append_assoc, List.singleton_append]
      exact idxOf1_append_self _ _ _ hxD
    rw [hclosed ids, List.getElem?_map, List.getElem?_eq_getElem hi]
    simp only [Option.map_some']
    rw [hidx, htake1]
    simp [List.length_append]
  · intro ids i j hi hj hij
    rw [hclosed ids, List.getElem?_map, List.getElem?_map,
      List.getElem?_eq_getElem hi, List.getElem?_eq_getElem hj]
    simp [hij]

/-- C5 (witness): the first-lookup conjunct applied at the concrete lookup
sequence `["a", "b", "a"]` and index `0`. -/
theorem C5_witness :
    (runResolver ["a", "b", "a"] [])[0]? =
      some ("Speaker " ++ toString ((distinctOrder (["a", "b", "a"].take (0 + 1)) []).length)) :=
  C5_speaker_resolver.1 ["a", "b", "a"] 0 (by decide) (by decide)

/-- Entries without sentences contribute nothing. -/
theorem extractSpecEntry_none (label : String) (e : RawTranscriptEntry)
    (h : e.sentences = none) : extractSpecEntry label e = [] := by
  simp [extractSpecEntry, h]

/-- Sentence-bearing entries contribute their lines. -/
theorem extractSpecEntry_some (label : String) (e : RawTranscriptEntry)
    (ss : List RawSentence) (h : e.sentences = some ss) :
    extractSpecEntry label e = extractLines label ss := by
  simp [extractSpecEntry, h]

/-- Closed form of the extractor's entry loop: every sentence-bearing entry
contributes its lines under the label indexed by its speaker's first-seen
rank among sentence-bearing entries. -/
theorem extractLoop_closed (l : List RawTranscriptEntry) (seen : List String) :
    extractLoop l (canonFrom "Speaker" 1 seen) =
      l.flatMap (fun e =>
        extractSpecEntry
          ("Speaker" ++
            toString (idxOf1 (seen ++ distinctOrder (sentenceBearingIds l) seen) e.speakerId + 1))
          e) := by
  induction l generalizing seen with
  | nil => rfl
  | cons e rest ih =>
    show (extractEntryStep e (canonFrom "Speaker" 1 seen)).1 ++
        extractLoop rest (extractEntryStep e (canonFrom "Speaker" 1 seen)).2 = _
    rw [List.flatMap_cons]
    cases hs : e.sentences with
    | none =>
      have hsb : sentenceBearingIds (e :: rest) = sentenceBearingIds rest := by
        simp [sentenceBearingIds, hs]
      have hstep : extractEntryStep e (canonFrom "Speaker" 1 seen) =
          ([], canonFrom "Speaker" 1 seen) := by
        simp [extractEntryStep, hs]
      rw [hstep, hsb, extractSpecEntry_none _ e hs]
      exact congrArg _ (ih seen)
    | some ss =>
      have hsb : sentenceBearingIds (e :: rest) = e.speakerId :: sentenceBearingIds rest := by
        simp [sentenceBearingIds, hs]
      rw [hsb, extractSpecEntry_some _ e ss hs]
      by_cases hc : e.speakerId ∈ seen
      · have hhas : mapHas (canonFrom "Speaker" 1 seen) e.speakerId = true := by
          rw [mapHas_canonFrom]; exact decide_eq_true hc
        have hstep : extractEntryStep e (canonFrom "Speaker" 1 seen) =
            (extractLines (mapGet (canonFrom "Speaker" 1 seen) e.speakerId) ss,
             canonFrom "Speaker" 1 seen) := by
          simp [extractEntryStep, hs, hhas]
        have hdo : distinctOrder (e.speakerId :: sentenceBearingIds rest) seen =
            distinctOrder (sentenceBearingIds rest) seen := by
          simp [distinctOrder, hc]
        rw [hstep, hdo]
        congr 1
        · rw [mapGet_canonFrom "Speaker" 1 seen e.speakerId hc,
            idxOf1_append_left seen _ e.speakerId hc]
          have harith : 1 + idxOf1 seen e.speakerId = idxOf1 seen e.speakerId + 1 := by omega
          rw [harith]
        · exact ih seen
      · have hhas : mapHas (canonFrom "Speaker" 1 seen) e.speakerId = false := by
          rw [mapHas_canonFrom]; exact decide_eq_false hc
        have hstep : extractEntryStep e (canonFrom "Speaker" 1 seen) =
            (extractLines ("Speaker" ++ toString (seen.length + 1)) ss,
             canonFrom "Speaker" 1 seen ++
               [(e.speakerId, "Speaker" ++ toString (seen.length + 1))]) := by
          simp [extractEntryStep, hs, hhas, canonFrom_length]
        have hsnoc : canonFrom "Speaker" 1 seen ++
              [(e.speakerId, "Speaker" ++ toString (seen.length + 1))] =
            canonFrom "Speaker" 1 (seen ++ [e.speakerId]) := by
          rw [canonFrom_snoc]
          have harith : 1 + seen.length = seen.length + 1 := by omega
          rw [harith]
        have hdo : distinctOrder (e.speakerId :: sentenceBearingIds rest) seen =
            e.speakerId :: distinctOrder (sentenceBearingIds rest) (seen ++ [e.speakerId]) := by
          simp [distinctOrder, hc]
        rw [hstep, hsnoc, hdo]
        congr 1
        · rw [idxOf1_append_self seen _ e.speakerId hc]
        · rw [ih (seen ++ [e.speakerId])]
          simp only [List.append_assoc, List.singleton_append]

/-- The two source copies of the extractor's entry loop coincide (the
ai-analysis copy only differs by a dead initial binding). -/
theorem extractLoopAI_eq (l : List RawTranscriptEntry) (m : SpeakerMap) :
    extractLoopAI l m = extractLoop l m := by
  induction l generalizing m with
  | nil => rfl
  | cons e rest ih =>
    show (extractEntryStepAI e m).1 ++ extractLoopAI rest (extractEntryStepAI e m).2 = _
    have hstep : extractEntryStepAI e m = extractEntryStep e m := rfl
    rw [hstep, ih]
    rfl

/-- C8 (counterexample): the extractor's speaker labels have no space
(`"Speaker1"`, not `"Speaker 1"`), so the claim's exact expected string is
wrong on its own example. -/
theorem C8_counterexample :
    extractConversationText
        (.arr [⟨"X", none, some [⟨some "  ", none, none⟩, ⟨some "Hello", none, none⟩],
          none, none, none, none⟩]) = "Speaker1: Hello" ∧
    "Speaker1: Hello" ≠ "Speaker 1: Hello" := by
  exact ⟨rfl, by decide⟩

/-- C8 (amended): for every entries array both source copies of the
Conversation Text Extractor return exactly the lines
`"{label}: {trimmedText}"` — one per sentence with non-blank trimmed text,
in scan order, where the label is `"Speaker{N}"` (no space) and N is the
speaker's 1-based first-seen rank among sentence-bearing entries — joined
by single newlines with no trailing newline; on the specification's
example with sentences `["  ", "Hello"]` the result is the exact string
`"Speaker1: Hello"`. -/
theorem C8_extractor :
    (∀ l, extractConversationText (.arr l) = specExtractText l) ∧
    (∀ x, extractConversationTextAI x = extractConversationText x) ∧
    extractConversationText
        (.arr [⟨"X", none, some [⟨some "  ", none, none⟩, ⟨some "Hello", none, none⟩],
          none, none, none, none⟩]) = "Speaker1: Hello" := by
  refine ⟨?_, ?_, rfl⟩
  · intro l
    show String.intercalate "\n" (extractLoop l []) = _
    rw [show ([] : SpeakerMap) = canonFrom "Speaker" 1 [] from rfl, extractLoop_closed l []]
    simp only [specExtractText, specExtractLines, specExtractLabel, List.nil_append]
  · intro x
    cases x with
    | notArray => rfl
    | arr l =>
      show String.intercalate "\n" (extractLoopAI l []) = _
      rw [extractLoopAI_eq]
      rfl

/-- The sentence step updates `speakerStats` exactly by the in-place
accumulation on the entry's speaker. -/
theorem analyzeSentenceStep_speakerStats (id : String) (topic : Option String)
    (a : CallAnalytics) (s : RawSentence) :
    (analyzeSentenceStep id topic a s).speakerStats =
      statsUpdate a.speakerStats id (fun st =>
        { st with
          totalTime := st.totalTime + anaDuration s
          wordCount := st.wordCount + anaWords s
          sentenceCount := st.sentenceCount + 1 }) := by
  simp only [analyzeSentenceStep]
  split_ifs <;> rfl

/-- The sentence step adds the sentence's duration to `totalDuration`. -/
theorem analyzeSentenceStep_totalDuration (id : String) (topic : Option String)
    (a : CallAnalytics) (s : RawSentence) :
    (analyzeSentenceStep id topic a s).totalDuration = a.totalDuration + anaDuration s := by
  simp only [analyzeSentenceStep]
  split_ifs <;> rfl

/-- The sentence step never touches the speaker-switch counter. -/
theorem analyzeSentenceStep_switches (id : String) (topic : Option String)
    (a : CallAnalytics) (s : RawSentence) :
    (analyzeSentenceStep id topic a s).interactionMetrics.speakerSwitches =
      a.interactionMetrics.speakerSwitches := by
  simp only [analyzeSentenceStep]
  split_ifs <;> rfl

/-- The sentence step transforms `topicFlow` by `jsTopicStep` when the
entry's topic is truthy and leaves it alone otherwise. -/
theorem analyzeSentenceStep_topicFlow (id : String) (topic : Option String)
    (a : CallAnalytics) (s : RawSentence) :
    (analyzeSentenceStep id topic a s).topicFlow =
      if truthyS topic then jsTopicStep a.topicFlow (topic.getD "", s) else a.topicFlow := by
  simp only [analyzeSentenceStep, jsTopicStep]
  split_ifs <;> rfl

/-- Updating a record keeps the key set of `speakerStats`. -/
theorem statsHas_statsUpdate (m : List (String × SpeakerStat)) (k : String)
    (f : SpeakerStat → SpeakerStat) (k' : String) :
    statsHas (statsUpdate m k f) k' = statsHas m k' := by
  induction m with
  | nil => rfl
  | cons p rest ih =>
    cases hp : p.1 == k
    · have ih' := ih
      simp only [statsHas] at ih'
      simp [statsUpdate, hp, statsHas, List.any_cons, ih']
    · simp [statsUpdate, hp, statsHas, List.any_cons]

/-- Sum of `totalTime` over a cons. -/
theorem sumTotalTime_cons (p : String × SpeakerStat) (rest : List (String × SpeakerStat)) :
    sumTotalTime (p :: rest) = p.2.totalTime + sumTotalTime rest := by
  simp [sumTotalTime]

/-- Sum of `totalTime` over an appended singleton. -/
theorem sumTotalTime_snoc (m : List (String × SpeakerStat)) (p : String × SpeakerStat) :
    sumTotalTime (m ++ [p]) = sumTotalTime m + p.2.totalTime := by
  simp [sumTotalTime]

/-- Updating a present record whose update adds `d` to `totalTime` adds `d`
to the sum. -/
theorem sumTotalTime_statsUpdate (m : List (String × SpeakerStat)) (k : String) (d : ℚ)
    (f : SpeakerStat → SpeakerStat) (hf : ∀ st, (f st).totalTime = st.totalTime + d)
    (h : statsHas m k = true) :
    sumTotalTime (statsUpdate m k f) = sumTotalTime m + d := by
  induction m with
  | nil => cases h
  | cons p rest ih =>
    cases hp : p.1 == k
    · have h' : statsHas rest k = true := by
        have := h
        simp only [statsHas, List.any_cons, hp, Bool.false_or] at this
        simpa [statsHas] using this
      rw [show statsUpdate (p :: rest) k f = p :: statsUpdate rest k f from by
        simp [statsUpdate, hp]]
      rw [sumTotalTime_cons, sumTotalTime_cons, ih h']
      ring
    · rw [show statsUpdate (p :: rest) k f = (p.1, f p.2) :: rest from by
        simp [statsUpdate, hp]]
      rw [sumTotalTime_cons, sumTotalTime_cons]
      rw [hf p.2]
      ring

/-- A freshly appended key is present. -/
theorem statsHas_snoc_self (m : List (String × SpeakerStat)) (id : String) (st : SpeakerStat) :
    statsHas (m ++ [(id, st)]) id = true := by
  simp [statsHas]

/-- Folding the sentence loop preserves the totals invariant and the
presence of the speaker's record. -/
theorem foldl_sentences_inv (id : String) (topic : Option String) (ss : List RawSentence) :
    ∀ a : CallAnalytics, statsHas a.speakerStats id = true →
      sumTotalTime a.speakerStats = a.totalDuration →
      sumTotalTime (ss.foldl (analyzeSentenceStep id topic) a).speakerStats =
          (ss.foldl (analyzeSentenceStep id topic) a).totalDuration ∧
        statsHas (ss.foldl (analyzeSentenceStep id topic) a).speakerStats id = true := by
  induction ss with
  | nil => exact fun a h1 h2 => ⟨h2, h1⟩
  | cons s rest ih =>
    intro a h1 h2
    rw [List.foldl_cons]
    apply ih
    · rw [analyzeSentenceStep_speakerStats, statsHas_statsUpdate]
      exact h1
    · rw [analyzeSentenceStep_speakerStats, analyzeSentenceStep_totalDuration,
        sumTotalTime_statsUpdate a.speakerStats id (anaDuration s) _ (fun st => rfl) h1, h2]

/-- One entry of the analyzer loop preserves the totals invariant. -/
theorem analyzeEntryStep_inv (a : CallAnalytics) (last : Option String)
    (e : RawTranscriptEntry) (h : sumTotalTime a.speakerStats = a.totalDuration) :
    sumTotalTime (analyzeEntryStep a last e).1.speakerStats =
      (analyzeEntryStep a last e).1.totalDuration := by
  cases hs : e.sentences with
  | none => simpa [analyzeEntryStep, hs] using h
  | some ss =>
    simp only [analyzeEntryStep, hs]
    cases hc : statsHas a.speakerStats e.speakerId
    · simp only [hc, Bool.false_eq_true, if_false]
      refine (foldl_sentences_inv e.speakerId e.topic ss _ ?_ ?_).1
      · show statsHas (a.speakerStats ++ [(e.speakerId, ⟨0, 0, 0, 0, 0⟩)]) e.speakerId = true
        exact statsHas_snoc_self _ _ _
      · show sumTotalTime (a.speakerStats ++ [(e.speakerId, ⟨0, 0, 0, 0, 0⟩)]) = a.totalDuration
        rw [sumTotalTime_snoc, h]
        ring
    · simp only [hc, if_true]
      refine (foldl_sentences_inv e.speakerId e.topic ss _ ?_ ?_).1
      · show statsHas a.speakerStats e.speakerId = true
        exact hc
      · show sumTotalTime a.speakerStats = a.totalDuration
        exact h

/-- The analyzer loop preserves the totals invariant. -/
theorem analyzeLoop_inv (l : List RawTranscriptEntry) :
    ∀ (a : CallAnalytics) (last : Option String),
      sumTotalTime a.speakerStats = a.totalDuration →
      sumTotalTime (analyzeLoop l a last).speakerStats =
        (analyzeLoop l a last).totalDuration := by
  induction l with
  | nil => exact fun a last h => h
  | cons e rest ih =>
    intro a last h
    exact ih _ _ (analyzeEntryStep_inv a last e h)

/-- The averages pass preserves the `totalTime` sum. -/
theorem finalizeStats_sumTotalTime (a : CallAnalytics) :
    sumTotalTime (finalizeStats a).speakerStats = sumTotalTime a.speakerStats := by
  simp only [finalizeStats, sumTotalTime, List.map_map]
  rfl

/-- C2: the per-speaker `totalTime` values of the analytics object sum
exactly to `totalDuration`, and every speaker's `talkTimePercentage` is
`totalTime/totalDuration*100` when `totalDuration > 0` and `0` when
`totalDuration = 0` (no division by zero). -/
theorem C2_speaker_totals :
    ∀ (l : List RawTranscriptEntry) (a : CallAnalytics),
      analyzeTranscriptContent (.arr l) = .result a →
      sumTotalTime a.speakerStats = a.totalDuration ∧
      ∀ p ∈ a.speakerStats,
        (a.totalDuration > 0 → p.2.talkTimePercentage = p.2.totalTime / a.totalDuration * 100) ∧
        (a.totalDuration = 0 → p.2.talkTimePercentage = 0) := by
  intro l a ha
  have ha' : analyzeEntries l = a := by
    have hres : AnalyticsResult.result (analyzeEntries l) = .result a := ha
    injection hres
  subst ha'
  constructor
  · rw [show analyzeEntries l = finalizeStats (analyzeLoop l initialAnalysis none) from rfl,
      finalizeStats_sumTotalTime]
    exact analyzeLoop_inv l initialAnalysis none rfl
  · intro p hp
    have hp' : p ∈ (analyzeLoop l initialAnalysis none).speakerStats.map (fun q =>
        (q.1, { q.2 with
          avgWordsPerSentence :=
            if q.2.sentenceCount > 0 then (q.2.wordCount : ℚ) / (q.2.sentenceCount : ℚ) else 0
          talkTimePercentage :=
            if (analyzeLoop l initialAnalysis none).totalDuration > 0 then
              q.2.totalTime / (analyzeLoop l initialAnalysis none).totalDuration * 100
            else 0 })) := hp
    rcases List.mem_map.mp hp' with ⟨q, hq, rfl⟩
    constructor
    · intro hpos
      have hpos' : (analyzeLoop l initialAnalysis none).totalDuration > 0 := hpos
      show (if (analyzeLoop l initialAnalysis none).totalDuration > 0 then
          q.2.totalTime / (analyzeLoop l initialAnalysis none).totalDuration * 100 else 0) =
        q.2.totalTime / (analyzeEntries l).totalDuration * 100
      rw [if_pos hpos']
      rfl
    · intro hzero
      have hzero' : ¬((analyzeLoop l initialAnalysis none).totalDuration > 0) := by
        have hz : (analyzeLoop l initialAnalysis none).totalDuration = 0 := hzero
        intro hgt
        rw [hz] at hgt
        exact lt_irrefl 0 hgt
      show (if (analyzeLoop l initialAnalysis none).totalDuration > 0 then
          q.2.totalTime / (analyzeLoop l initialAnalysis none).totalDuration * 100 else 0) = 0
      rw [if_neg hzero']

/-- C2 (witness): the totals invariant at a concrete one-entry transcript. -/
theorem C2_witness :
    sumTotalTime (analyzeEntries
        [⟨"A", none, some [⟨some "hey", some 1000, some 3000⟩], none, none, none, none⟩]).speakerStats =
      (analyzeEntries
        [⟨"A", none, some [⟨some "hey", some 1000, some 3000⟩], none, none, none, none⟩]).totalDuration :=
  (C2_speaker_totals
    [⟨"A", none, some [⟨some "hey", some 1000, some 3000⟩], none, none, none, none⟩]
    (analyzeEntries
      [⟨"A", none, some [⟨some "hey", some 1000, some 3000⟩], none, none, none, none⟩]) rfl).1

/-- The sentence loop never touches the speaker-switch counter. -/
theorem foldl_sentences_switches (id : String) (topic : Option String) (ss : List RawSentence) :
    ∀ a : CallAnalytics,
      (ss.foldl (analyzeSentenceStep id topic) a).interactionMetrics.speakerSwitches =
        a.interactionMetrics.speakerSwitches := by
  induction ss with
  | nil => intro a; rfl
  | cons s rest ih =>
    intro a
    rw [List.foldl_cons, ih, analyzeSentenceStep_switches]

/-- The analyzer loop accumulates exactly the truthiness-guarded switch
count. -/
theorem analyzeLoop_switches (l : List RawTranscriptEntry) :
    ∀ (a : CallAnalytics) (last : Option String),
      (analyzeLoop l a last).interactionMetrics.speakerSwitches =
        a.interactionMetrics.speakerSwitches + specSwitchesAmended l last := by
  induction l with
  | nil => intro a last; simp [analyzeLoop, specSwitchesAmended]
  | cons e rest ih =>
    intro a last
    rw [show analyzeLoop (e :: rest) a last =
        analyzeLoop rest (analyzeEntryStep a last e).1 (analyzeEntryStep a last e).2 from rfl]
    cases hs : e.sentences with
    | none =>
      have hstep : analyzeEntryStep a last e = (a, last) := by simp [analyzeEntryStep, hs]
      have hspec : specSwitchesAmended (e :: rest) last = specSwitchesAmended rest last := by
        simp [specSwitchesAmended, hs]
      rw [hstep, hspec]
      exact ih a last
    | some ss =>
      have h1 : (analyzeEntryStep a last e).2 = some e.speakerId := by
        simp [analyzeEntryStep, hs]
      rw [h1, ih _ (some e.speakerId)]
      cases last with
      | none =>
        have h2 : (analyzeEntryStep a none e).1.interactionMetrics.speakerSwitches =
            a.interactionMetrics.speakerSwitches := by
          simp only [analyzeEntryStep, hs]
          rw [foldl_sentences_switches e.speakerId e.topic ss]
          cases hc : statsHas a.speakerStats e.speakerId <;> simp [hc]
        have hspec : specSwitchesAmended (e :: rest) none =
            specSwitchesAmended rest (some e.speakerId) := by
          simp [specSwitchesAmended, hs]
        rw [h2, hspec]
      | some ls =>
        have h2 : (analyzeEntryStep a (some ls) e).1.interactionMetrics.speakerSwitches =
            a.interactionMetrics.speakerSwitches +
              (if ls ≠ "" ∧ ls ≠ e.speakerId then 1 else 0) := by
          simp only [analyzeEntryStep, hs]
          rw [foldl_sentences_switches e.speakerId e.topic ss]
          cases hc : statsHas a.speakerStats e.speakerId <;> simp [hc]
        have hspec : specSwitchesAmended (e :: rest) (some ls) =
            (if ls ≠ "" ∧ ls ≠ e.speakerId then 1 else 0) +
              specSwitchesAmended rest (some e.speakerId) := by
          simp [specSwitchesAmended, hs]
        rw [h2, hspec]
        omega

/-- C6 (counterexample): a remembered empty-string speaker is falsy in the
switch check, so the transition from speaker `""` to speaker `"A"` is not
counted, while the claim's rule (any string differing from the previous
sentence-bearing entry's speaker) counts it. -/
theorem C6_counterexample :
    (analyzeEntries
        [⟨"", none, some [⟨some "x", none, none⟩], none, none, none, none⟩,
         ⟨"A", none, some [⟨some "y", none, none⟩], none, none, none,
          none⟩]).interactionMetrics.speakerSwitches = 0 ∧
    specSwitches
        [⟨"", none, some [⟨some "x", none, none⟩], none, none, none, none⟩,
         ⟨"A", none, some [⟨some "y", none, none⟩], none, none, none, none⟩] none = 1 := by
  constructor
  · rfl
  · rfl

/-- C6 (amended): the analyzer's speakerSwitches counter counts the
sentence-bearing entries whose speakerId differs from the remembered
previous sentence-bearing entry's speakerId, except that a remembered
empty-string speaker (falsy) never triggers a switch; entries without a
sentences array neither count nor reset the memory. -/
theorem C6_speaker_switches (l : List RawTranscriptEntry) :
    (analyzeEntries l).interactionMetrics.speakerSwitches = specSwitchesAmended l none := by
  show (analyzeLoop l initialAnalysis none).interactionMetrics.speakerSwitches = _
  rw [analyzeLoop_switches l initialAnalysis none]
  simp [initialAnalysis]

/-- The sentence loop transforms `topicFlow` by folding `jsTopicStep` over
the entry's contributing pairs. -/
theorem foldl_sentences_topicFlow (id : String) (topic : Option String) (ss : List RawSentence) :
    ∀ a : CallAnalytics,
      (ss.foldl (analyzeSentenceStep id topic) a).topicFlow =
        (if truthyS topic then ss.map (fun s => (topic.getD "", s)) else []).foldl
          jsTopicStep a.topicFlow := by
  induction ss with
  | nil => intro a; cases ht : truthyS topic <;> simp [ht]
  | cons s rest ih =>
    intro a
    rw [List.foldl_cons, ih ((analyzeSentenceStep id topic a s)), analyzeSentenceStep_topicFlow]
    cases ht : truthyS topic
    · simp [ht]
    · simp [ht]

/-- One entry of the analyzer loop transforms `topicFlow` by folding
`jsTopicStep` over the entry's contributing pairs. -/
theorem analyzeEntryStep_topicFlow (a : CallAnalytics) (last : Option String)
    (e : RawTranscriptEntry) :
    (analyzeEntryStep a last e).1.topicFlow = (topicPairs [e]).foldl jsTopicStep a.topicFlow := by
  cases hs : e.sentences with
  | none => simp [analyzeEntryStep, hs, topicPairs]
  | some ss =>
    simp only [analyzeEntryStep, hs]
    rw [foldl_sentences_topicFlow e.speakerId e.topic ss]
    cases hc : statsHas a.speakerStats e.speakerId <;>
      cases ht : truthyS e.topic <;>
        simp [hc, ht, topicPairs, hs]

/-- The analyzer loop's `topicFlow` is the fold of `jsTopicStep` over all
contributing pairs. -/
theorem analyzeLoop_topicFlow (l : List RawTranscriptEntry) :
    ∀ (a : CallAnalytics) (last : Option String),
      (analyzeLoop l a last).topicFlow = (topicPairs l).foldl jsTopicStep a.topicFlow := by
  induction l with
  | nil => intro a last; simp [topicPairs, analyzeLoop]
  | cons e rest ih =>
    intro a last
    rw [show analyzeLoop (e :: rest) a last =
        analyzeLoop rest (analyzeEntryStep a last e).1 (analyzeEntryStep a last e).2 from rfl]
    rw [ih _ _, analyzeEntryStep_topicFlow]
    have hsplit : topicPairs (e :: rest) = topicPairs [e] ++ topicPairs rest := by
      simp [topicPairs]
    rw [hsplit, List.foldl_append]

/-- A pair with a different topic does not change a topic's spec record. -/
theorem specTopicRecord_snoc_ne (ps : List (String × RawSentence)) (p : String × RawSentence)
    (t' : String) (h : p.1 ≠ t') :
    specTopicRecord (ps ++ [p]) t' = specTopicRecord ps t' := by
  have hf : (ps ++ [p]).filter (fun q => q.1 == t') = ps.filter (fun q => q.1 == t') := by
    rw [List.filter_append]
    have hsing : [p].filter (fun q => q.1 == t') = [] := by simp [h]
    rw [hsing, List.append_nil]
  simp [specTopicRecord, hf]

/-- A topic that occurs among the pairs has a non-empty filter. -/
theorem filter_ne_nil_of_mem_fst (ps : List (String × RawSentence)) (t : String)
    (h : t ∈ ps.map Prod.fst) :
    ps.filter (fun q => q.1 == t) ≠ [] := by
  rcases List.mem_map.mp h with ⟨q, hq, hqt⟩
  exact List.ne_nil_of_mem (List.mem_filter.mpr ⟨hq, by simp [hqt]⟩)

/-- Appending a pair of an already-seen topic bumps duration and mentions
and freezes startTime. -/
theorem specTopicRecord_snoc_eq_mem (ps : List (String × RawSentence)) (p : String × RawSentence)
    (h : p.1 ∈ ps.map Prod.fst) :
    specTopicRecord (ps ++ [p]) p.1 =
      ⟨p.1, (specTopicRecord ps p.1).startTime,
        (specTopicRecord ps p.1).duration + anaDuration p.2,
        (specTopicRecord ps p.1).mentions + 1⟩ := by
  have hf : (ps ++ [p]).filter (fun q => q.1 == p.1) =
      ps.filter (fun q => q.1 == p.1) ++ [p] := by
    rw [List.filter_append]
    simp
  have hne := filter_ne_nil_of_mem_fst ps p.1 h
  have hhead : (ps.filter (fun q => q.1 == p.1) ++ [p]).head? =
      (ps.filter (fun q => q.1 == p.1)).head? := by
    cases hl : ps.filter (fun q => q.1 == p.1) with
    | nil => exact absurd hl hne
    | cons x xs => rfl
  simp [specTopicRecord, hf, hhead, List.map_append, List.sum_append]

/-- Appending a pair of a fresh topic yields the freshly pushed record. -/
theorem specTopicRecord_snoc_eq_new (ps : List (String × RawSentence))
    (p : String × RawSentence) (h : p.1 ∉ ps.map Prod.fst) :
    specTopicRecord (ps ++ [p]) p.1 = ⟨p.1, anaStart p.2, anaDuration p.2, 1⟩ := by
  have hf0 : ps.filter (fun q => q.1 == p.1) = [] := by
    rw [List.filter_eq_nil_iff]
    intro q hq
    simp only [beq_iff_eq]
    intro he
    exact h (List.mem_map.mpr ⟨q, hq, he⟩)
  have hf : (ps ++ [p]).filter (fun q => q.1 == p.1) = [p] := by
    rw [List.filter_append, hf0]
    simp
  simp [specTopicRecord, hf]

/-- In-place topic update over a duplicate-free mapped list is a pointwise
conditional map. -/
theorem topicUpdate_map (D : List String) (g : String → TopicRecord)
    (hg : ∀ t', (g t').topic = t') (t : String) (d : ℚ) (hnd : D.Nodup) :
    topicUpdate (D.map g) t d =
      D.map (fun t' => if t' = t then
        ⟨(g t').topic, (g t').startTime, (g t').duration + d, (g t').mentions + 1⟩
      else g t') := by
  induction D with
  | nil => rfl
  | cons x D' ih =>
    rw [List.map_cons, List.map_cons]
    by_cases hx : x = t
    · subst hx
      rw [show topicUpdate (g x :: D'.map g) x d =
          ⟨(g x).topic, (g x).startTime, (g x).duration + d, (g x).mentions + 1⟩ :: D'.map g from by
        simp [topicUpdate, hg x]]
      rw [if_pos rfl]
      congr 1
      have hx' : x ∉ D' := (List.nodup_cons.mp hnd).1
      apply List.map_congr_left
      intro a ha
      rw [if_neg]
      intro he
      exact hx' (he ▸ ha)
    · rw [show topicUpdate (g x :: D'.map g) t d = g x :: topicUpdate (D'.map g) t d from by
        simp [topicUpdate, hg x, hx]]
      rw [if_neg hx]
      congr 1
      exact ih (List.nodup_cons.mp hnd).2

/-- The analyzer's `find`-style existence check over the spec topic flow is
exactly topic membership among the contributing pairs. -/
theorem specTopicFlow_any_iff (ps : List (String × RawSentence)) (t : String) :
    (specTopicFlowOfPairs ps).any (fun r => r.topic == t) = true ↔ t ∈ ps.map Prod.fst := by
  rw [specTopicFlowOfPairs, List.any_eq_true]
  constructor
  · rintro ⟨r, hr, hrt⟩
    rcases List.mem_map.mp hr with ⟨t', ht', rfl⟩
    have ht : t' = t := by
      simpa [show (specTopicRecord ps t').topic = t' from rfl] using hrt
    exact ht ▸ ((mem_distinctOrder _ _ _).mp ht').1
  · intro hm
    refine ⟨specTopicRecord ps t, List.mem_map_of_mem _ ?_, ?_⟩
    · exact (mem_distinctOrder _ _ _).mpr ⟨hm, by simp⟩
    · simp [show (specTopicRecord ps t).topic = t from rfl]

/-- One contributing pair transforms the spec topic flow exactly like the
analyzer's find-then-update-or-push step. -/
theorem specTopicFlowOfPairs_snoc (ps : List (String × RawSentence)) (p : String × RawSentence) :
    specTopicFlowOfPairs (ps ++ [p]) = jsTopicStep (specTopicFlowOfPairs ps) p := by
  have hmapfst : (ps ++ [p]).map Prod.fst = ps.map Prod.fst ++ [p.1] := by simp
  by_cases hm : p.1 ∈ ps.map Prod.fst
  · have hD : distinctOrder ((ps ++ [p]).map Prod.fst) [] =
        distinctOrder (ps.map Prod.fst) [] := by
      rw [hmapfst, distinctOrder_append]
      have hmem : p.1 ∈ distinctOrder (ps.map Prod.fst) [] := by
        simp [mem_distinctOrder, hm]
      have hsing : distinctOrder [p.1] ([] ++ distinctOrder (ps.map Prod.fst) []) = [] := by
        simp [distinctOrder, hmem]
      rw [hsing, List.append_nil]
    have hany : (specTopicFlowOfPairs ps).any (fun r => r.topic == p.1) = true :=
      (specTopicFlow_any_iff ps p.1).mpr hm
    rw [show jsTopicStep (specTopicFlowOfPairs ps) p =
        topicUpdate (specTopicFlowOfPairs ps) p.1 (anaDuration p.2) from by
      simp [jsTopicStep, hany]]
    rw [specTopicFlowOfPairs, specTopicFlowOfPairs, hD,
      topicUpdate_map _ (specTopicRecord ps) (fun t' => rfl) p.1 (anaDuration p.2)
        (distinctOrder_nodup _ _)]
    apply List.map_congr_left
    intro t' ht'
    by_cases hx : t' = p.1
    · subst hx
      rw [if_pos rfl, specTopicRecord_snoc_eq_mem ps p hm]
      rfl
    · rw [if_neg hx, specTopicRecord_snoc_ne ps p t' (fun he => hx he.symm)]
  · have hnm : p.1 ∉ distinctOrder (ps.map Prod.fst) [] := by
      simp [mem_distinctOrder, hm]
    have hDnew : distinctOrder ((ps ++ [p]).map Prod.fst) [] =
        distinctOrder (ps.map Prod.fst) [] ++ [p.1] := by
      rw [hmapfst, distinctOrder_append]
      have hsing : distinctOrder [p.1] ([] ++ distinctOrder (ps.map Prod.fst) []) = [p.1] := by
        simp [distinctOrder, hnm]
      rw [hsing]
    have hany : (specTopicFlowOfPairs ps).any (fun r => r.topic == p.1) = false := by
      rw [← Bool.not_eq_true]
      rw [specTopicFlow_any_iff]
      exact hm
    rw [show jsTopicStep (specTopicFlowOfPairs ps) p =
        specTopicFlowOfPairs ps ++ [⟨p.1, anaStart p.2, anaDuration p.2, 1⟩] from by
      simp [jsTopicStep, hany]]
    rw [specTopicFlowOfPairs, hDnew, List.map_append]
    congr 1
    · rw [specTopicFlowOfPairs]
      apply List.map_congr_left
      intro t' ht'
      have ht'' : t' ≠ p.1 := fun he => hm (he ▸ ((mem_distinctOrder _ _ _).mp ht').1)
      exact specTopicRecord_snoc_ne ps p t' (fun he => ht'' he.symm)
    · rw [List.map_singleton, specTopicRecord_snoc_eq_new ps p hm]

/-- The analyzer's incremental topic fold computes the spec's grouped topic
flow. -/
theorem foldl_jsTopicStep_spec (ps : List (String × RawSentence)) :
    ps.foldl jsTopicStep [] = specTopicFlowOfPairs ps := by
  induction ps using List.reverseRecOn with
  | nil => rfl
  | append_singleton ps p ih =>
    rw [List.foldl_append, List.foldl_cons, List.foldl_nil, ih, specTopicFlowOfPairs_snoc]

/-- C7: the analyzer's `topicFlow` has exactly one record per distinct
truthy topic of the contributing sentences, in first-occurrence order, with
`startTime` frozen at the first contributing sentence, and `mentions` /
`duration` accumulated over all contributing sentences (adjacent or not);
on the specification's example — two one-sentence `"pricing"` entries of 5
and 7 seconds separated by an unrelated-topic entry — the `"pricing"`
record is `{topic:"pricing", startTime:1, duration:12, mentions:2}`. -/
theorem C7_topic_flow :
    (∀ l, (analyzeEntries l).topicFlow = specTopicFlow l) ∧
    (analyzeEntries
        [⟨"A", some "pricing", some [⟨some "a", some 1000, some 6000⟩], none, none, none, none⟩,
         ⟨"B", some "other", some [⟨some "b", some 0, some 0⟩], none, none, none, none⟩,
         ⟨"A", some "pricing", some [⟨some "c", some 10000, some 17000⟩], none, none, none,
          none⟩]).topicFlow =
      [⟨"pricing", 1, 12, 2⟩, ⟨"other", 0, 0, 1⟩] := by
  constructor
  · intro l
    show (analyzeLoop l initialAnalysis none).topicFlow = _
    rw [analyzeLoop_topicFlow l initialAnalysis none]
    show (topicPairs l).foldl jsTopicStep [] = _
    rw [foldl_jsTopicStep_spec]
    rfl
  · norm_num [analyzeEntries, analyzeLoop, analyzeEntryStep, analyzeSentenceStep,
      finalizeStats, initialAnalysis, statsHas, statsUpdate, bumpSentiment, topicUpdate,
      anaText, anaDuration, anaWords, anaSentiment, anaStart, analyzeSentence, truthyS,
      truthyQ, jsSplitSpace, splitSpaceChars, lowerStr, jsIncludes, containsSub,
      positiveWords, negativeWords, TopicRecord.mk.injEq]
    decide
